import Mathlib

/-!
Shallow embedding of the URL-shortener core found in
src/Frontend_test_submission/src/App.jsx.

The JS code keeps its state in React hooks and localStorage; here the store
is an explicit `List LinkEntry` and every operation is a pure function on it.
External collaborators are passed as parameters:
an `isValidUrl : String → Bool` argument stands for the browser URL parser
(`new URL(...)` in a try/catch), a `randoms : Nat → String` stream stands for
the successive results of `Math.random().toString(36)`, and a
`parseJson` argument stands for `JSON.parse`.  Timestamps are modelled as
milliseconds since the epoch (the JS code stores `Date.toISOString()` strings,
an injective rendering of the same instant).  The unbounded `do ... while`
retry loop of `generateShortCode` is modelled with explicit fuel; `none`
means the loop did not finish within the given fuel.
-/

/-- One row of the submission form: raw `url`, `validity` and `shortcode`
strings, any of which may be empty. -/
structure Input where
  url : String
  validity : String
  shortcode : String
deriving DecidableEq

/-- A stored short-link record, as built by `handleShorten`. -/
structure LinkEntry where
  originalUrl : String
  shortcode : String
  shortUrl : String
  createdAt : Nat
  expiresAt : Nat
  clicks : Nat
deriving DecidableEq

/-- JS: `const DEFAULT_VALIDITY = 30`. -/
def DEFAULT_VALIDITY : Nat := 30

/-- The JS code keys its per-field error object by strings of the shape
`url3` / `validity3` / `shortcode3`; that keying is modelled by this
typed (field, row-index) key. -/
inductive ErrKey where
  | url (idx : Nat)
  | validity (idx : Nat)
  | shortcode (idx : Nat)
deriving DecidableEq

/-- JS `getStoredUrls`: read the raw record (absent = `none`) and JSON-parse
it inside a try/catch, then apply the falsy-fallback to the empty array.  A
parse exception is the outer `none`, a parse to a falsy value (such as the
`null` got for a missing record) is the inner `none`; both degrade to `[]`. -/
def getStoredUrls (parseJson : String → Option (Option (List LinkEntry)))
    (raw : Option String) : List LinkEntry :=
  match raw with
  | Option.none => []
  | Option.some s =>
    match parseJson s with
    | Option.none => []
    | Option.some Option.none => []
    | Option.some (Option.some urls) => urls

/-- JS `inputs.some((input, idx) => idx !== currentIdx && input.shortcode === code)`,
threading the running index explicitly (the top-level call starts at 0). -/
def someInputShortcode (code : String) (currentIdx : Int) : List Input → Int → Bool
  | [], _ => false
  | input :: rest, idx =>
    ((idx != currentIdx) && (input.shortcode == code)) ||
      someInputShortcode code currentIdx rest (idx + 1)

/-- JS `isShortcodeUnique(code, currentIdx = -1)`. -/
def isShortcodeUnique (shortenedUrls : List LinkEntry) (inputs : List Input)
    (code : String) (currentIdx : Int) : Bool :=
  !(shortenedUrls.any fun item => item.shortcode == code) &&
    !(someInputShortcode code currentIdx inputs 0)

/-- JS regex test `/^[a-zA-Z0-9]{3,10}$/.test(code)`. -/
def isValidShortcode (code : String) : Bool :=
  decide (3 ≤ code.length) && decide (code.length ≤ 10) &&
    code.toList.all Char.isAlphanum

/-- JS regex test `/^\d+$/.test(s)`. -/
def isAllDigitsJS (s : String) : Bool :=
  !s.isEmpty && s.toList.all Char.isDigit

/-- JS `parseInt` restricted to the digit-led strings it is applied to here:
the value of the leading run of decimal digits. -/
def parseIntJS (s : String) : Nat :=
  (s.toList.takeWhile Char.isDigit).foldl (fun acc c => acc * 10 + (c.toNat - 48)) 0

/-- The `url` clause of the JS `validateInputs` row body. -/
def urlError (isValidUrl : String → Bool) (idx : Nat) (input : Input) :
    List (ErrKey × String) :=
  if !(isValidUrl input.url) then [(ErrKey.url idx, "Invalid URL")] else []

/-- The `validity` clause of the JS `validateInputs` row body. -/
def validityError (idx : Nat) (input : Input) : List (ErrKey × String) :=
  if (input.validity != "") &&
      (!(isAllDigitsJS input.validity) || decide (parseIntJS input.validity ≤ 0)) then
    [(ErrKey.validity idx, "Must be a positive number")]
  else []

/-- The `shortcode` clause of the JS `validateInputs` row body. -/
def shortcodeError (store : List LinkEntry) (inputs : List Input) (idx : Nat)
    (input : Input) : List (ErrKey × String) :=
  if input.shortcode != "" then
    if !(isValidShortcode input.shortcode) then
      [(ErrKey.shortcode idx, "3-10 alphanumeric chars")]
    else if !(isShortcodeUnique store inputs input.shortcode (Int.ofNat idx)) then
      [(ErrKey.shortcode idx, "This code is already taken")]
    else []
  else []

/-- One iteration of the JS `inputs.forEach((input, idx) => ...)` body:
rows with an empty URL are skipped entirely. -/
def rowErrors (isValidUrl : String → Bool) (store : List LinkEntry)
    (inputs : List Input) (idx : Nat) (input : Input) : List (ErrKey × String) :=
  if input.url != "" then
    urlError isValidUrl idx input ++ validityError idx input ++
      shortcodeError store inputs idx input
  else []

/-- The JS `forEach` over the rows, accumulating the error object in order. -/
def validateFrom (isValidUrl : String → Bool) (store : List LinkEntry)
    (inputs : List Input) : List Input → Nat → List (ErrKey × String)
  | [], _ => []
  | input :: rest, idx =>
    rowErrors isValidUrl store inputs idx input ++
      validateFrom isValidUrl store inputs rest (idx + 1)

/-- JS `validateInputs`: the per-field error set for the whole batch
(`[]` means the batch is clean and the JS function returns true). -/
def validateInputs (isValidUrl : String → Bool) (store : List LinkEntry)
    (inputs : List Input) : List (ErrKey × String) :=
  validateFrom isValidUrl store inputs inputs 0

/-- JS `s.substring(a, b)`: the characters at positions `a ≤ i < b`. -/
def jsSubstring (s : String) (a b : Nat) : String :=
  ((s.toList.drop a).take (b - a)).asString

/-- JS `generateShortCode`: draw `randoms k` (the k-th result of
`Math.random().toString(36)`), take `substring(2, 8)`, and retry while the
candidate is not unique.  `fuel` bounds the unbounded JS loop; a `some`
result carries the code and the next unused stream position. -/
def generateShortCode (randoms : Nat → String) (store : List LinkEntry)
    (inputs : List Input) : Nat → Nat → Option (String × Nat)
  | _, 0 => Option.none
  | k, fuel + 1 =>
    let code := jsSubstring (randoms k) 2 8
    if isShortcodeUnique store inputs code (-1) then Option.some (code, k + 1)
    else generateShortCode randoms store inputs (k + 1) fuel

/-- The object literal built inside the JS `handleShorten` map. -/
def mkEntry (origin : String) (now : Nat) (input : Input) (code : String) : LinkEntry :=
  let validity := if input.validity != "" then parseIntJS input.validity else DEFAULT_VALIDITY
  { originalUrl := input.url
    shortcode := code
    shortUrl := origin ++ "/" ++ code
    createdAt := now
    expiresAt := now + validity * 60000
    clicks := 0 }

/-- The JS `inputs.filter(...).map(...)` of `handleShorten`, threading the
random-stream position through the `generateShortCode` calls. -/
def buildEntries (origin : String) (now : Nat) (randoms : Nat → String) (fuel : Nat)
    (store : List LinkEntry) (inputs : List Input) :
    List Input → Nat → Option (List LinkEntry)
  | [], _ => Option.some []
  | input :: rest, k =>
    if input.shortcode != "" then
      match buildEntries origin now randoms fuel store inputs rest k with
      | Option.none => Option.none
      | Option.some es => Option.some (mkEntry origin now input input.shortcode :: es)
    else
      match generateShortCode randoms store inputs k fuel with
      | Option.none => Option.none
      | Option.some (code, k2) =>
        match buildEntries origin now randoms fuel store inputs rest k2 with
        | Option.none => Option.none
        | Option.some es => Option.some (mkEntry origin now input code :: es)

/-- JS `handleShorten` (the `submitBatch` operation): validate, and on a clean
batch build the new entries from the non-empty-URL rows and append them to the
store in one write.  The result pairs the error set with the store after the
call; `none` models a `generateShortCode` loop that never exits. -/
def handleShorten (isValidUrl : String → Bool) (origin : String) (now : Nat)
    (randoms : Nat → String) (fuel : Nat) (store : List LinkEntry)
    (inputs : List Input) : Option (List (ErrKey × String) × List LinkEntry) :=
  if (validateInputs isValidUrl store inputs).isEmpty then
    match buildEntries origin now randoms fuel store inputs
        (inputs.filter fun i => i.url != "") 0 with
    | Option.none => Option.none
    | Option.some news =>
      if news.isEmpty then Option.some (validateInputs isValidUrl store inputs, store)
      else Option.some (validateInputs isValidUrl store inputs, store ++ news)
  else Option.some (validateInputs isValidUrl store inputs, store)

/-- What the `RedirectShortUrl` effect does for the visitor: either an
immediate navigation to the stored target, or the not-found notice followed by
`setTimeout(() => navigate("/"), delay)`. -/
inductive ResolveOutcome where
  | redirect (target : String)
  | goHomeAfterMs (delay : Nat)
deriving DecidableEq

/-- The JS `RedirectShortUrl` effect (the `resolve(code)` operation): find the
entry, and if present bump its click counter in the store and redirect;
otherwise leave the store alone and go home after 3000 ms. -/
def resolve (shortenedUrls : List LinkEntry) (code : String) :
    ResolveOutcome × List LinkEntry :=
  match shortenedUrls.find? fun item => item.shortcode == code with
  | Option.some found =>
    (ResolveOutcome.redirect found.originalUrl,
      shortenedUrls.map fun url =>
        if url.shortcode == code then { url with clicks := url.clicks + 1 } else url)
  | Option.none => (ResolveOutcome.goHomeAfterMs 3000, shortenedUrls)

/-- A base-36 digit as rendered by JS `Number.prototype.toString(36)`:
a decimal digit or a lowercase letter. -/
def isBase36Lower (c : Char) : Bool := c.isDigit || c.isLower

/-- The two-row batch of the duplicated-shortcode example: both rows carry
the explicit shortcode `same1`. -/
def sameBatch : List Input :=
  [⟨"https://a.com", "", "same1"⟩, ⟨"https://b.com", "", "same1"⟩]

/-! Helper lemmas about the uniqueness check and the code generator. -/

theorem someInputShortcode_false_forall (code : String) (l : List Input) :
    ∀ (i : Int), 0 ≤ i → someInputShortcode code (-1) l i = false →
      ∀ row ∈ l, row.shortcode ≠ code := by
  induction l with
  | nil => intro i _ _ row hrow; simp at hrow
  | cons input rest ih =>
    intro i hi h row hrow
    rw [someInputShortcode, Bool.or_eq_false_iff] at h
    obtain ⟨h1, h2⟩ := h
    rcases List.mem_cons.mp hrow with hr | hr
    · subst hr
      have hne : (i != -1) = true := by rw [bne_iff_ne]; omega
      rw [hne, Bool.true_and, beq_eq_false_iff_ne] at h1
      exact h1
    · exact ih (i + 1) (by omega) h2 row hr

theorem someInputShortcode_true_of (code : String) (cur : Int) (l : List Input) :
    ∀ (i : Int) (j : Nat) (row : Input), l[j]? = Option.some row →
      i + (j : Int) ≠ cur → row.shortcode = code →
      someInputShortcode code cur l i = true := by
  induction l with
  | nil => intro i j row hj _ _; simp at hj
  | cons input rest ih =>
    intro i j row hj hne hc
    rw [someInputShortcode, Bool.or_eq_true]
    cases j with
    | zero =>
      left
      rw [List.getElem?_cons_zero, Option.some_inj] at hj
      have h1 : (i != cur) = true := by rw [bne_iff_ne]; simpa using hne
      have h2 : (input.shortcode == code) = true := by rw [beq_iff_eq, hj]; exact hc
      rw [h1, h2, Bool.true_and]
    | succ j' =>
      right
      rw [List.getElem?_cons_succ] at hj
      exact ih (i + 1) j' row hj (by push_cast at hne ⊢; omega) hc

theorem isShortcodeUnique_neg1_spec (store : List LinkEntry) (inputs : List Input)
    (code : String) (h : isShortcodeUnique store inputs code (-1) = true) :
    (∀ e ∈ store, e.shortcode ≠ code) ∧ (∀ row ∈ inputs, row.shortcode ≠ code) := by
  rw [isShortcodeUnique, Bool.and_eq_true, Bool.not_eq_true', Bool.not_eq_true'] at h
  obtain ⟨h1, h2⟩ := h
  constructor
  · intro e he
    have := List.any_eq_false.mp h1 e he
    simpa [beq_eq_false_iff_ne] using this
  · exact someInputShortcode_false_forall code inputs 0 (by omega) h2

theorem generateShortCode_some_spec (randoms : Nat → String) (store : List LinkEntry)
    (inputs : List Input) :
    ∀ (fuel k k2 : Nat) (c : String),
      generateShortCode randoms store inputs k fuel = Option.some (c, k2) →
      isShortcodeUnique store inputs c (-1) = true ∧
        ∃ n, c = jsSubstring (randoms n) 2 8 := by
  intro fuel
  induction fuel with
  | zero => intro k k2 c h; simp [generateShortCode] at h
  | succ fuel ih =>
    intro k k2 c h
    rw [generateShortCode] at h
    by_cases hu : isShortcodeUnique store inputs (jsSubstring (randoms k) 2 8) (-1) = true
    · rw [if_pos hu, Option.some_inj] at h
      injection h with h1 h2
      subst h1
      exact ⟨hu, k, rfl⟩
    · rw [if_neg hu] at h
      exact ih (k + 1) k2 c h

theorem jsSubstring_length_le (s : String) : (jsSubstring s 2 8).length ≤ 6 := by
  rw [jsSubstring, List.length_asString]
  exact List.length_take_le 6 _

theorem jsSubstring_length_eq (s : String) (h : 6 ≤ (s.toList.drop 2).length) :
    (jsSubstring s 2 8).length = 6 := by
  rw [jsSubstring, List.length_asString, List.length_take]
  exact min_eq_left h

theorem jsSubstring_all (s : String) (p : Char → Bool)
    (h : (s.toList.drop 2).all p = true) : (jsSubstring s 2 8).toList.all p = true := by
  rw [jsSubstring, List.toList_asString, List.all_eq_true]
  intro c hc
  exact List.all_eq_true.mp h c (List.mem_of_mem_take hc)

/-! Helper lemmas about resolution. -/

theorem map_noop {α : Type} (f : α → α) (l : List α) (h : ∀ x ∈ l, f x = x) :
    l.map f = l := by
  rw [List.map_congr_left h]
  exact List.map_id l

theorem find?_middle (p : LinkEntry → Bool) (pre post : List LinkEntry) (e : LinkEntry)
    (hpre : ∀ x ∈ pre, p x = false) (he : p e = true) :
    (pre ++ e :: post).find? p = Option.some e := by
  induction pre with
  | nil => simpa using List.find?_cons_of_pos post he
  | cons a t ih =>
    have ha : ¬p a = true := by
      rw [hpre a (List.mem_cons_self a t)]; exact Bool.false_ne_true
    calc ((a :: t) ++ e :: post).find? p = (t ++ e :: post).find? p :=
          List.find?_cons_of_neg _ ha
      _ = Option.some e := ih fun x hx => hpre x (List.mem_cons_of_mem a hx)

theorem resolve_found_eq (pre post : List LinkEntry) (e : LinkEntry) (code : String)
    (he : e.shortcode = code)
    (hpre : ∀ x ∈ pre, x.shortcode ≠ code) (hpost : ∀ x ∈ post, x.shortcode ≠ code) :
    resolve (pre ++ e :: post) code =
      (ResolveOutcome.redirect e.originalUrl,
        pre ++ { e with clicks := e.clicks + 1 } :: post) := by
  have hfind : (pre ++ e :: post).find? (fun item => item.shortcode == code)
      = Option.some e :=
    find?_middle _ pre post e
      (fun x hx => beq_eq_false_iff_ne.mpr (hpre x hx)) (beq_iff_eq.mpr he)
  have hmap : (pre ++ e :: post).map (fun url =>
        if url.shortcode == code then { url with clicks := url.clicks + 1 } else url)
      = pre ++ { e with clicks := e.clicks + 1 } :: post := by
    rw [List.map_append, List.map_cons]
    have h1 : pre.map (fun url =>
        if url.shortcode == code then { url with clicks := url.clicks + 1 } else url) = pre :=
      map_noop _ pre fun x hx => by
        simp [beq_eq_false_iff_ne.mpr (hpre x hx)]
    have h2 : post.map (fun url =>
        if url.shortcode == code then { url with clicks := url.clicks + 1 } else url) = post :=
      map_noop _ post fun x hx => by
        simp [beq_eq_false_iff_ne.mpr (hpost x hx)]
    have h3 : (if e.shortcode == code then { e with clicks := e.clicks + 1 } else e)
        = { e with clicks := e.clicks + 1 } := by
      simp [beq_iff_eq.mpr he]
    rw [h1, h2, h3]
  simp only [resolve, hfind, hmap]

theorem resolve_none_of_absent (store : List LinkEntry) (code : String)
    (h : ∀ x ∈ store, x.shortcode ≠ code) :
    store.find? (fun item => item.shortcode == code) = Option.none :=
  List.find?_eq_none.mpr fun x hx => by
    simp only [beq_iff_eq]
    exact h x hx

/-! Helper lemmas about the validator. -/

theorem mem_validateFrom_iff (iv : String → Bool) (store : List LinkEntry)
    (inputs : List Input) (x : ErrKey × String) :
    ∀ (rows : List Input) (n : Nat),
      x ∈ validateFrom iv store inputs rows n ↔
        ∃ (j : Nat) (row : Input), rows[j]? = Option.some row ∧
          x ∈ rowErrors iv store inputs (n + j) row := by
  intro rows
  induction rows with
  | nil => intro n; simp [validateFrom]
  | cons r t ih =>
    intro n
    rw [validateFrom, List.mem_append]
    constructor
    · intro h
      rcases h with h | h
      · exact ⟨0, r, by simp, by simpa using h⟩
      · obtain ⟨j, row, hj, hmem⟩ := (ih (n + 1)).mp h
        refine ⟨j + 1, row, by simpa using hj, ?_⟩
        have harith : n + 1 + j = n + (j + 1) := by omega
        rwa [harith] at hmem
    · rintro ⟨j, row, hj, hmem⟩
      cases j with
      | zero =>
        left
        rw [List.getElem?_cons_zero, Option.some_inj] at hj
        subst hj
        simpa using hmem
      | succ j2 =>
        right
        rw [List.getElem?_cons_succ] at hj
        refine (ih (n + 1)).mpr ⟨j2, row, hj, ?_⟩
        have harith : n + (j2 + 1) = n + 1 + j2 := by omega
        rwa [harith] at hmem

theorem mem_rowErrors_fmt (iv : String → Bool) (store : List LinkEntry)
    (inputs : List Input) (i idx : Nat) (row : Input) :
    (ErrKey.shortcode i, "3-10 alphanumeric chars") ∈ rowErrors iv store inputs idx row ↔
      (i = idx ∧ row.url ≠ "" ∧ row.shortcode ≠ "" ∧
        isValidShortcode row.shortcode = false) := by
  rw [rowErrors]
  simp only [urlError, validityError, shortcodeError]
  split_ifs <;> simp_all [bne_iff_ne, List.mem_append]

theorem mem_rowErrors_taken (iv : String → Bool) (store : List LinkEntry)
    (inputs : List Input) (i idx : Nat) (row : Input) :
    (ErrKey.shortcode i, "This code is already taken") ∈ rowErrors iv store inputs idx row ↔
      (i = idx ∧ row.url ≠ "" ∧ row.shortcode ≠ "" ∧
        isValidShortcode row.shortcode = true ∧
        isShortcodeUnique store inputs row.shortcode (Int.ofNat idx) = false) := by
  rw [rowErrors]
  simp only [urlError, validityError, shortcodeError]
  split_ifs <;> simp_all [bne_iff_ne, List.mem_append]

theorem not_mem_rowErrors_shortcode_of_empty (iv : String → Bool) (store : List LinkEntry)
    (inputs : List Input) (i idx : Nat) (row : Input) (msg : String)
    (hempty : row.shortcode = "") :
    (ErrKey.shortcode i, msg) ∉ rowErrors iv store inputs idx row := by
  rw [rowErrors]
  simp only [urlError, validityError, shortcodeError]
  split_ifs <;> simp_all [bne_iff_ne, List.mem_append]

/-! Helper lemmas about batch submission. -/

theorem buildEntries_forall₂ (origin : String) (now : Nat) (randoms : Nat → String)
    (fuel : Nat) (store : List LinkEntry) (inputs : List Input) :
    ∀ (rows : List Input) (k : Nat) (news : List LinkEntry),
      buildEntries origin now randoms fuel store inputs rows k = Option.some news →
      List.Forall₂ (fun (row : Input) (e : LinkEntry) =>
        (∃ code, e = mkEntry origin now row code) ∧
          (row.shortcode ≠ "" → e = mkEntry origin now row row.shortcode)) rows news := by
  intro rows
  induction rows with
  | nil =>
    intro k news h
    rw [buildEntries, Option.some_inj] at h
    subst h
    exact List.Forall₂.nil
  | cons r t ih =>
    intro k news h
    rw [buildEntries] at h
    by_cases hr : (r.shortcode != "") = true
    · rw [if_pos hr] at h
      cases hb : buildEntries origin now randoms fuel store inputs t k with
      | none => rw [hb] at h; exact absurd h (by simp)
      | some es =>
        rw [hb, Option.some_inj] at h
        subst h
        exact List.Forall₂.cons ⟨⟨r.shortcode, rfl⟩, fun _ => rfl⟩ (ih k es hb)
    · rw [if_neg hr] at h
      have hre : r.shortcode = "" := by simpa [bne_iff_ne] using hr
      split at h
      · exact absurd h (by simp)
      · rename_i code k2 hg
        split at h
        · exact absurd h (by simp)
        · rename_i es hb
          rw [Option.some_inj] at h
          subst h
          exact List.Forall₂.cons
            ⟨⟨code, rfl⟩, fun hne => absurd hre hne⟩ (ih k2 es hb)

theorem handleShorten_of_errors (iv : String → Bool) (origin : String) (now : Nat)
    (randoms : Nat → String) (fuel : Nat) (store : List LinkEntry) (inputs : List Input)
    (h : validateInputs iv store inputs ≠ []) :
    handleShorten iv origin now randoms fuel store inputs =
      Option.some (validateInputs iv store inputs, store) := by
  have he : (validateInputs iv store inputs).isEmpty = false :=
    List.isEmpty_eq_false.mpr h
  simp [handleShorten, he]

theorem handleShorten_some_suffix (iv : String → Bool) (origin : String) (now : Nat)
    (randoms : Nat → String) (fuel : Nat) (store : List LinkEntry) (inputs : List Input)
    (errs : List (ErrKey × String)) (store2 : List LinkEntry)
    (h : handleShorten iv origin now randoms fuel store inputs = Option.some (errs, store2)) :
    ∃ news, store2 = store ++ news := by
  rw [handleShorten] at h
  split at h
  · split at h
    · exact absurd h (by simp)
    · rename_i news hb
      split at h
      · rw [Option.some_inj] at h
        injection h with h1 h2
        exact ⟨[], by rw [List.append_nil]; exact h2.symm⟩
      · rw [Option.some_inj] at h
        injection h with h1 h2
        exact ⟨news, h2.symm⟩
  · rw [Option.some_inj] at h
    injection h with h1 h2
    exact ⟨[], by rw [List.append_nil]; exact h2.symm⟩

theorem handleShorten_clean_spec (iv : String → Bool) (origin : String) (now : Nat)
    (randoms : Nat → String) (fuel : Nat) (store : List LinkEntry) (inputs : List Input)
    (store2 : List LinkEntry)
    (h : handleShorten iv origin now randoms fuel store inputs = Option.some ([], store2)) :
    validateInputs iv store inputs = [] ∧
      ∃ news, buildEntries origin now randoms fuel store inputs
          (inputs.filter fun i => i.url != "") 0 = Option.some news ∧
        store2 = store ++ news := by
  rw [handleShorten] at h
  split at h
  · rename_i he
    refine ⟨List.isEmpty_eq_true.mp he, ?_⟩
    split at h
    · exact absurd h (by simp)
    · rename_i news hb
      split at h
      · rename_i hn
        rw [Option.some_inj] at h
        injection h with h1 h2
        refine ⟨news, hb, ?_⟩
        rw [List.isEmpty_eq_true.mp hn, List.append_nil]
        exact h2.symm
      · rw [Option.some_inj] at h
        injection h with h1 h2
        exact ⟨news, hb, h2.symm⟩
  · rename_i he
    rw [Option.some_inj] at h
    injection h with h1 h2
    exact absurd (List.isEmpty_eq_true.mpr h1) he

theorem isValidShortcode_iff (s : String) :
    isValidShortcode s = true ↔
      (3 ≤ s.length ∧ s.length ≤ 10 ∧ s.toList.all Char.isAlphanum = true) := by
  simp [isValidShortcode, Bool.and_eq_true, decide_eq_true_iff, and_assoc]

theorem mem_rowErrors_shortcode_key (iv : String → Bool) (store : List LinkEntry)
    (inputs : List Input) (i idx : Nat) (row : Input) (msg : String)
    (h : (ErrKey.shortcode i, msg) ∈ rowErrors iv store inputs idx row) :
    i = idx ∧ row.shortcode ≠ "" := by
  rw [rowErrors] at h
  simp only [urlError, validityError, shortcodeError] at h
  split_ifs at h <;> simp_all [bne_iff_ne, List.mem_append]

/-! Claim theorems. -/

/-- C3: for every code with exactly one stored entry, `resolve` reports success
with that entry's `originalUrl` and, as its only store mutation, increments
that entry's `clicks` by exactly 1, writing the updated entry back. -/
theorem c3_resolve_success_increments_clicks (pre post : List LinkEntry)
    (e : LinkEntry) (code : String) (he : e.shortcode = code)
    (hpre : ∀ x ∈ pre, x.shortcode ≠ code) (hpost : ∀ x ∈ post, x.shortcode ≠ code) :
    resolve (pre ++ e :: post) code =
      (ResolveOutcome.redirect e.originalUrl,
        pre ++ { e with clicks := e.clicks + 1 } :: post) :=
  resolve_found_eq pre post e code he hpre hpost

theorem c3_witness :
    resolve [(⟨("https://x.com"), ("abc"), ("o/abc"), 0, 10, 0⟩ : LinkEntry)] ("abc") =
      (ResolveOutcome.redirect ("https://x.com"),
        [(⟨("https://x.com"), ("abc"), ("o/abc"), 0, 10, 1⟩ : LinkEntry)]) :=
  c3_resolve_success_increments_clicks [] [] ⟨("https://x.com"), ("abc"), ("o/abc"), 0, 10, 0⟩
    ("abc") rfl (by decide) (by decide)

/-- C4: for a code with no entry in the store (the empty store included),
`resolve` reports the not-found outcome, leaves the store untouched, and the
visitor is sent home after the fixed 3000 ms delay. -/
theorem c4_resolve_notfound_no_mutation (store : List LinkEntry) (code : String)
    (h : ∀ x ∈ store, x.shortcode ≠ code) :
    resolve store code = (ResolveOutcome.goHomeAfterMs 3000, store) := by
  simp only [resolve, resolve_none_of_absent store code h]

theorem c4_witness :
    resolve ([] : List LinkEntry) ("missing") = (ResolveOutcome.goHomeAfterMs 3000, []) :=
  c4_resolve_notfound_no_mutation [] ("missing") (by decide)

/-- C7: resolution never checks expiry: an entry whose `expiresAt` lies in the
past still resolves with success exactly like a live one — its `originalUrl`
is reported and its `clicks` incremented — and it is never sent down the
not-found (go home after 3000 ms) path. -/
theorem c7_expired_entry_still_resolves (pre post : List LinkEntry) (e : LinkEntry)
    (code : String) (now : Nat) (_hexpired : e.expiresAt < now)
    (he : e.shortcode = code)
    (hpre : ∀ x ∈ pre, x.shortcode ≠ code) (hpost : ∀ x ∈ post, x.shortcode ≠ code) :
    resolve (pre ++ e :: post) code =
      (ResolveOutcome.redirect e.originalUrl,
        pre ++ { e with clicks := e.clicks + 1 } :: post) ∧
    (resolve (pre ++ e :: post) code).1 ≠ ResolveOutcome.goHomeAfterMs 3000 := by
  have heq := resolve_found_eq pre post e code he hpre hpost
  refine ⟨heq, ?_⟩
  rw [heq]
  simp

theorem c7_witness :
    (resolve [(⟨("https://y.com"), ("xyz"), ("o/xyz"), 0, 5, 2⟩ : LinkEntry)] ("xyz") =
      (ResolveOutcome.redirect ("https://y.com"),
        [(⟨("https://y.com"), ("xyz"), ("o/xyz"), 0, 5, 3⟩ : LinkEntry)])) ∧
    (resolve [(⟨("https://y.com"), ("xyz"), ("o/xyz"), 0, 5, 2⟩ : LinkEntry)] ("xyz")).1 ≠
      ResolveOutcome.goHomeAfterMs 3000 :=
  c7_expired_entry_still_resolves [] [] ⟨("https://y.com"), ("xyz"), ("o/xyz"), 0, 5, 2⟩
    ("xyz") 6 (by decide) rfl (by decide) (by decide)

/-- C9: the store loader never surfaces an error: a missing record and a
record whose parse raises both load as the empty entry list. -/
theorem c9_load_malformed_or_missing_empty
    (parseJson : String → Option (Option (List LinkEntry))) (s : String)
    (hbad : parseJson s = Option.none) :
    getStoredUrls parseJson Option.none = [] ∧
      getStoredUrls parseJson (Option.some s) = [] := by
  refine ⟨rfl, ?_⟩
  simp only [getStoredUrls, hbad]

theorem c9_witness :
    getStoredUrls (fun _ => Option.none) Option.none = [] ∧
      getStoredUrls (fun _ => Option.none) (Option.some ("not json")) = [] :=
  c9_load_malformed_or_missing_empty (fun _ => Option.none) ("not json") rfl

/-- C1: if validation of a submitted batch produces any error, `handleShorten`
returns the per-field error set and writes nothing to the store — no entry of
the batch is created, the individually valid ones included.  In particular a
batch whose two rows both carry the shortcode same1 has both rows reported as
taken and the whole batch rejected, whatever the store and the URL checker. -/
theorem c1_submitBatch_all_or_nothing (iv : String → Bool) (origin : String)
    (now : Nat) (randoms : Nat → String) (fuel : Nat) (store : List LinkEntry)
    (inputs : List Input) (herr : validateInputs iv store inputs ≠ []) :
    handleShorten iv origin now randoms fuel store inputs =
      Option.some (validateInputs iv store inputs, store) ∧
    (ErrKey.shortcode 0, "This code is already taken") ∈ validateInputs iv store sameBatch ∧
    (ErrKey.shortcode 1, "This code is already taken") ∈ validateInputs iv store sameBatch ∧
    handleShorten iv origin now randoms fuel store sameBatch =
      Option.some (validateInputs iv store sameBatch, store) := by
  have hsome0 : someInputShortcode ("same1") (Int.ofNat 0) sameBatch 0 = true := by decide
  have hsome1 : someInputShortcode ("same1") (Int.ofNat 1) sameBatch 0 = true := by decide
  have huniq0 : isShortcodeUnique store sameBatch ("same1") (Int.ofNat 0) = false := by
    rw [isShortcodeUnique, hsome0]
    simp
  have huniq1 : isShortcodeUnique store sameBatch ("same1") (Int.ofNat 1) = false := by
    rw [isShortcodeUnique, hsome1]
    simp
  have hmem0 : (ErrKey.shortcode 0, "This code is already taken")
      ∈ validateInputs iv store sameBatch := by
    rw [validateInputs]
    refine (mem_validateFrom_iff iv store sameBatch _ sameBatch 0).mpr
      ⟨0, ⟨("https://a.com"), "", ("same1")⟩, rfl,
        (mem_rowErrors_taken iv store sameBatch 0 (0 + 0) _).mpr
          ⟨rfl, by decide, by decide, by decide, huniq0⟩⟩
  have hmem1 : (ErrKey.shortcode 1, "This code is already taken")
      ∈ validateInputs iv store sameBatch := by
    rw [validateInputs]
    refine (mem_validateFrom_iff iv store sameBatch _ sameBatch 0).mpr
      ⟨1, ⟨("https://b.com"), "", ("same1")⟩, rfl,
        (mem_rowErrors_taken iv store sameBatch 1 (0 + 1) _).mpr
          ⟨rfl, by decide, by decide, by decide, huniq1⟩⟩
  refine ⟨handleShorten_of_errors iv origin now randoms fuel store inputs herr,
    hmem0, hmem1,
    handleShorten_of_errors iv origin now randoms fuel store sameBatch
      (List.ne_nil_of_mem hmem0)⟩

theorem c1_witness :
    handleShorten (fun _ => true) ("o") 0 (fun _ => ("0.aaaaaa")) 1 []
        [(⟨("https://a.com"), "", ("ab")⟩ : Input)] =
      Option.some (validateInputs (fun _ => true) []
        [(⟨("https://a.com"), "", ("ab")⟩ : Input)], []) ∧
    (ErrKey.shortcode 0, "This code is already taken")
      ∈ validateInputs (fun _ => true) [] sameBatch ∧
    (ErrKey.shortcode 1, "This code is already taken")
      ∈ validateInputs (fun _ => true) [] sameBatch ∧
    handleShorten (fun _ => true) ("o") 0 (fun _ => ("0.aaaaaa")) 1 [] sameBatch =
      Option.some (validateInputs (fun _ => true) [] sameBatch, []) :=
  c1_submitBatch_all_or_nothing (fun _ => true) ("o") 0 (fun _ => ("0.aaaaaa")) 1 []
    [(⟨("https://a.com"), "", ("ab")⟩ : Input)] (by decide)

/-- C6: after any `handleShorten` call that returns, every previously stored
entry is still present, unchanged and in its old position, and whatever was
created is appended after the existing entries. -/
theorem c6_submitBatch_append_only (iv : String → Bool) (origin : String) (now : Nat)
    (randoms : Nat → String) (fuel : Nat) (store : List LinkEntry) (inputs : List Input)
    (errs : List (ErrKey × String)) (store2 : List LinkEntry)
    (h : handleShorten iv origin now randoms fuel store inputs = Option.some (errs, store2)) :
    ∃ news, store2 = store ++ news :=
  handleShorten_some_suffix iv origin now randoms fuel store inputs errs store2 h

theorem c6_witness :
    ∃ news,
      [(⟨("https://old.com"), ("old123"), ("o/old123"), 0, 9, 7⟩ : LinkEntry),
       (⟨("https://example.com"), ("qrstuv"), ("o/qrstuv"), 5, 1800005, 0⟩ : LinkEntry)] =
        [(⟨("https://old.com"), ("old123"), ("o/old123"), 0, 9, 7⟩ : LinkEntry)] ++ news :=
  c6_submitBatch_append_only (fun _ => true) ("o") 5 (fun _ => ("0.qrstuv")) 1
    [⟨("https://old.com"), ("old123"), ("o/old123"), 0, 9, 7⟩]
    [(⟨("https://example.com"), "", ""⟩ : Input)] []
    [⟨("https://old.com"), ("old123"), ("o/old123"), 0, 9, 7⟩,
     ⟨("https://example.com"), ("qrstuv"), ("o/qrstuv"), 5, 1800005, 0⟩]
    (by decide)

/-- C5: every entry created by a successful submit has clicks 0, createdAt
equal to the one batch instant `now`, expiresAt = createdAt plus the validity
minutes (the parsed user value, or 30 when the field is empty) in
milliseconds, shortUrl = origin ++ / ++ shortcode, originalUrl = the row's
url, and an explicit shortcode kept verbatim; rows with an empty URL are
dropped, the entries corresponding 1-1, in order, to the non-empty-URL rows. -/
theorem c5_created_entry_fields (iv : String → Bool) (origin : String) (now : Nat)
    (randoms : Nat → String) (fuel : Nat) (store : List LinkEntry) (inputs : List Input)
    (store2 : List LinkEntry)
    (h : handleShorten iv origin now randoms fuel store inputs = Option.some ([], store2)) :
    ∃ news, store2 = store ++ news ∧
      List.Forall₂ (fun (row : Input) (e : LinkEntry) =>
        e.originalUrl = row.url ∧
        e.clicks = 0 ∧
        e.createdAt = now ∧
        e.shortUrl = origin ++ "/" ++ e.shortcode ∧
        e.expiresAt = e.createdAt +
          (if row.validity = "" then DEFAULT_VALIDITY else parseIntJS row.validity) * 60000 ∧
        (row.shortcode ≠ "" → e.shortcode = row.shortcode))
        (inputs.filter fun i => i.url != "") news := by
  obtain ⟨hv, news, hb, hs⟩ :=
    handleShorten_clean_spec iv origin now randoms fuel store inputs store2 h
  refine ⟨news, hs, ?_⟩
  have hf := buildEntries_forall₂ origin now randoms fuel store inputs
    (inputs.filter fun i => i.url != "") 0 news hb
  refine hf.imp ?_
  rintro row e ⟨⟨code, hcode⟩, hexp⟩
  subst hcode
  refine ⟨rfl, rfl, rfl, rfl, ?_, ?_⟩
  · by_cases hval : row.validity = ""
    · have hbv : (row.validity != "") = false := by simp [hval]
      simp [mkEntry, hbv, hval]
    · have hbv : (row.validity != "") = true := by simpa [bne_iff_ne] using hval
      simp [mkEntry, hbv, hval]
  · intro hne
    have hcodes := congrArg LinkEntry.shortcode (hexp hne)
    simpa [mkEntry] using hcodes

theorem c5_witness :
    ∃ news,
      [(⟨("https://example.com"), ("qrstuv"), ("http://localhost/qrstuv"), 5, 1800005, 0⟩
        : LinkEntry)] = [] ++ news ∧
      List.Forall₂ (fun (row : Input) (e : LinkEntry) =>
        e.originalUrl = row.url ∧
        e.clicks = 0 ∧
        e.createdAt = 5 ∧
        e.shortUrl = ("http://localhost") ++ "/" ++ e.shortcode ∧
        e.expiresAt = e.createdAt +
          (if row.validity = "" then DEFAULT_VALIDITY else parseIntJS row.validity) * 60000 ∧
        (row.shortcode ≠ "" → e.shortcode = row.shortcode))
        (([(⟨("https://example.com"), "", ""⟩ : Input)]).filter fun i => i.url != "") news :=
  c5_created_entry_fields (fun _ => true) ("http://localhost") 5 (fun _ => ("0.qrstuv")) 1
    [] [(⟨("https://example.com"), "", ""⟩ : Input)]
    [⟨("https://example.com"), ("qrstuv"), ("http://localhost/qrstuv"), 5, 1800005, 0⟩]
    (by decide)

/-- C8: for a batch row with a non-empty URL and a non-empty shortcode, the
format error is raised exactly when the shortcode is not 3-10 alphanumeric
characters (so the two-character code ab fails), a batch containing such a
row creates no entries, and an empty shortcode field never yields any
shortcode error for that row. -/
theorem c8_shortcode_format (iv : String → Bool) (origin : String) (now : Nat)
    (randoms : Nat → String) (fuel : Nat) (store : List LinkEntry) (inputs : List Input)
    (idx : Nat) (row : Input) (hrow : inputs[idx]? = Option.some row)
    (hurl : row.url ≠ "") :
    (row.shortcode ≠ "" →
      ((ErrKey.shortcode idx, "3-10 alphanumeric chars") ∈ validateInputs iv store inputs ↔
        ¬(3 ≤ row.shortcode.length ∧ row.shortcode.length ≤ 10 ∧
          row.shortcode.toList.all Char.isAlphanum = true))) ∧
    isValidShortcode ("ab") = false ∧
    (row.shortcode ≠ "" → isValidShortcode row.shortcode = false →
      handleShorten iv origin now randoms fuel store inputs =
        Option.some (validateInputs iv store inputs, store)) ∧
    (row.shortcode = "" →
      ∀ msg : String, (ErrKey.shortcode idx, msg) ∉ validateInputs iv store inputs) := by
  have hmem_of_bad : row.shortcode ≠ "" → isValidShortcode row.shortcode = false →
      (ErrKey.shortcode idx, "3-10 alphanumeric chars") ∈ validateInputs iv store inputs := by
    intro hne hbad
    rw [validateInputs]
    exact (mem_validateFrom_iff iv store inputs _ inputs 0).mpr
      ⟨idx, row, hrow, (mem_rowErrors_fmt iv store inputs idx (0 + idx) row).mpr
        ⟨(Nat.zero_add idx).symm, hurl, hne, hbad⟩⟩
  refine ⟨?_, by decide, ?_, ?_⟩
  · intro hne
    constructor
    · intro hmem
      rw [validateInputs] at hmem
      obtain ⟨j, row2, hj, hmem2⟩ := (mem_validateFrom_iff iv store inputs _ inputs 0).mp hmem
      obtain ⟨hij, _, _, hbad⟩ := (mem_rowErrors_fmt iv store inputs idx (0 + j) row2).mp hmem2
      have hj2 : inputs[idx]? = Option.some row2 := by
        rw [hij, Nat.zero_add]
        exact hj
      rw [hrow, Option.some_inj] at hj2
      rw [← hj2] at hbad
      intro hgood
      rw [(isValidShortcode_iff row.shortcode).mpr hgood] at hbad
      exact absurd hbad (by decide)
    · intro hbad
      refine hmem_of_bad hne ?_
      cases hvs : isValidShortcode row.shortcode with
      | false => rfl
      | true => exact absurd ((isValidShortcode_iff row.shortcode).mp hvs) hbad
  · intro hne hbad
    exact handleShorten_of_errors iv origin now randoms fuel store inputs
      (List.ne_nil_of_mem (hmem_of_bad hne hbad))
  · intro hempty msg hmem
    rw [validateInputs] at hmem
    obtain ⟨j, row2, hj, hmem2⟩ := (mem_validateFrom_iff iv store inputs _ inputs 0).mp hmem
    obtain ⟨hij, hne2⟩ := mem_rowErrors_shortcode_key iv store inputs idx (0 + j) row2 msg hmem2
    have hj2 : inputs[idx]? = Option.some row2 := by
      rw [hij, Nat.zero_add]
      exact hj
    rw [hrow, Option.some_inj] at hj2
    rw [← hj2, hempty] at hne2
    exact hne2 rfl

theorem c8_witness :
    (("ab" : String) ≠ "" →
      ((ErrKey.shortcode 0, "3-10 alphanumeric chars")
          ∈ validateInputs (fun _ => true) [] [(⟨("https://a.com"), "", ("ab")⟩ : Input)] ↔
        ¬(3 ≤ ("ab" : String).length ∧ ("ab" : String).length ≤ 10 ∧
          ("ab" : String).toList.all Char.isAlphanum = true))) ∧
    isValidShortcode ("ab") = false ∧
    (("ab" : String) ≠ "" → isValidShortcode ("ab") = false →
      handleShorten (fun _ => true) ("o") 0 (fun _ => ("0.aaaaaa")) 1 []
          [(⟨("https://a.com"), "", ("ab")⟩ : Input)] =
        Option.some (validateInputs (fun _ => true) []
          [(⟨("https://a.com"), "", ("ab")⟩ : Input)], [])) ∧
    (("ab" : String) = "" →
      ∀ msg : String, (ErrKey.shortcode 0, msg) ∉
        validateInputs (fun _ => true) [] [(⟨("https://a.com"), "", ("ab")⟩ : Input)]) :=
  c8_shortcode_format (fun _ => true) ("o") 0 (fun _ => ("0.aaaaaa")) 1 []
    [(⟨("https://a.com"), "", ("ab")⟩ : Input)] 0 ⟨("https://a.com"), "", ("ab")⟩
    rfl (by decide)

/-- C10: a shortcode typed into a row whose URL field is empty still takes
part in uniqueness checking even though the row itself is skipped: an
explicit identical shortcode in another, submitted row fails validation as
taken, and the code generator never returns a code equal to it. -/
theorem c10_skipped_row_code_still_reserved (iv : String → Bool) (store : List LinkEntry)
    (inputs : List Input) (randoms : Nat → String) (i j : Nat) (rowi rowj : Input)
    (hi : inputs[i]? = Option.some rowi) (hj : inputs[j]? = Option.some rowj)
    (hij : i ≠ j) (_hjurl : rowj.url = "") (hsame : rowi.shortcode = rowj.shortcode)
    (hiurl : rowi.url ≠ "") (hfmt : isValidShortcode rowi.shortcode = true)
    (k fuel k2 : Nat) (c : String) :
    (ErrKey.shortcode i, "This code is already taken") ∈ validateInputs iv store inputs ∧
    (generateShortCode randoms store inputs k fuel = Option.some (c, k2) →
      c ≠ rowj.shortcode) := by
  constructor
  · have hne : rowi.shortcode ≠ "" := by
      intro h0
      have hlen := ((isValidShortcode_iff rowi.shortcode).mp hfmt).1
      rw [h0] at hlen
      simp at hlen
    have hsome : someInputShortcode rowi.shortcode (Int.ofNat i) inputs 0 = true := by
      refine someInputShortcode_true_of rowi.shortcode (Int.ofNat i) inputs 0 j rowj hj
        ?_ hsame.symm
      intro hcontra
      rw [Int.ofNat_eq_coe] at hcontra
      apply hij
      omega
    have huniq : isShortcodeUnique store inputs rowi.shortcode (Int.ofNat i) = false := by
      rw [isShortcodeUnique, hsome]
      simp
    rw [validateInputs]
    refine (mem_validateFrom_iff iv store inputs _ inputs 0).mpr
      ⟨i, rowi, hi, (mem_rowErrors_taken iv store inputs i (0 + i) rowi).mpr
        ⟨(Nat.zero_add i).symm, hiurl, hne, hfmt, ?_⟩⟩
    rw [Nat.zero_add]
    exact huniq
  · intro hg
    have hspec := generateShortCode_some_spec randoms store inputs fuel k k2 c hg
    have huniq := isShortcodeUnique_neg1_spec store inputs c hspec.1
    have hmemj : rowj ∈ inputs := List.mem_iff_getElem?.mpr ⟨j, hj⟩
    exact Ne.symm (huniq.2 rowj hmemj)

theorem c10_witness :
    (ErrKey.shortcode 1, "This code is already taken") ∈
      validateInputs (fun _ => true) []
        [(⟨"", "", ("abc")⟩ : Input), (⟨("https://a.com"), "", ("abc")⟩ : Input)] ∧
    (generateShortCode (fun _ => ("0.xyzxyz")) []
        [(⟨"", "", ("abc")⟩ : Input), (⟨("https://a.com"), "", ("abc")⟩ : Input)] 0 1 =
      Option.some (("xyzxyz"), 1) → ("xyzxyz" : String) ≠ ("abc" : String)) :=
  c10_skipped_row_code_still_reserved (fun _ => true) []
    [(⟨"", "", ("abc")⟩ : Input), (⟨("https://a.com"), "", ("abc")⟩ : Input)]
    (fun _ => ("0.xyzxyz")) 1 0 ⟨("https://a.com"), "", ("abc")⟩ ⟨"", "", ("abc")⟩
    rfl rfl (by decide) rfl rfl (by decide) (by decide) 0 1 1 ("xyzxyz")

/-- C2 counterexample: the generated code is not always 6 characters long.
With the random draw 0.5 — whose base-36 rendering by toString(36) is the
string 0.i — substring(2, 8) yields the 1-character candidate i, it passes
the uniqueness check, and the submit stores an entry whose shortcode has
length 1, not 6. -/
theorem c2_counterexample_short_code :
    handleShorten (fun _ => true) ("http://localhost:3000") 0 (fun _ => ("0.i")) 1 []
        [(⟨("https://example.com"), "", ""⟩ : Input)] =
      Option.some ([],
        [(⟨("https://example.com"), ("i"), ("http://localhost:3000/i"), 0, 1800000, 0⟩
          : LinkEntry)]) ∧
    String.length ("i") ≠ 6 := by
  exact ⟨by decide, by decide⟩

/-- C2 amended: a code returned by the generator never equals any shortcode
already in the store nor any shortcode among the batch's input rows (so in
particular none used earlier in the same batch); it has at most 6 characters
— exactly 6 whenever every random draw carries at least 6 fractional digits —
and all its characters are lowercase base-36 digits whenever the random draws
are base-36 fraction strings. -/
theorem c2_generated_code_unique (randoms : Nat → String) (store : List LinkEntry)
    (inputs : List Input) (k fuel k2 : Nat) (c : String)
    (h : generateShortCode randoms store inputs k fuel = Option.some (c, k2)) :
    (∀ e ∈ store, e.shortcode ≠ c) ∧ (∀ row ∈ inputs, row.shortcode ≠ c) ∧
    c.length ≤ 6 ∧
    ((∀ n, 6 ≤ ((randoms n).toList.drop 2).length) → c.length = 6) ∧
    ((∀ n, ((randoms n).toList.drop 2).all isBase36Lower = true) →
      c.toList.all isBase36Lower = true) := by
  obtain ⟨huniq, n, hc⟩ := generateShortCode_some_spec randoms store inputs fuel k k2 c h
  obtain ⟨h1, h2⟩ := isShortcodeUnique_neg1_spec store inputs c huniq
  subst hc
  exact ⟨h1, h2, jsSubstring_length_le _,
    fun hlen => jsSubstring_length_eq _ (hlen n),
    fun hall => jsSubstring_all _ _ (hall n)⟩

theorem c2_witness :
    (∀ e ∈ ([] : List LinkEntry), e.shortcode ≠ ("abcdef" : String)) ∧
    (∀ row ∈ ([] : List Input), row.shortcode ≠ ("abcdef" : String)) ∧
    String.length ("abcdef") ≤ 6 ∧
    ((∀ n : Nat, 6 ≤ ((("0.abcdef" : String)).toList.drop 2).length) →
      String.length ("abcdef") = 6) ∧
    ((∀ n : Nat, ((("0.abcdef" : String)).toList.drop 2).all isBase36Lower = true) →
      ("abcdef" : String).toList.all isBase36Lower = true) :=
  c2_generated_code_unique (fun _ => ("0.abcdef")) [] [] 0 1 1 ("abcdef") (by decide)
